import Mathlib

/-!
Verification of the `Shape` geometry/editing core of `labelme/shape.py`.

The embedding models Qt's float coordinates as exact rationals; the numpy
buffer `poly_array` (an n×2 float array, or `None` before initialization)
is modelled as `Option (List Row)` with one `Row` per array row.  Python
exceptions that escape a method are reported in an explicit `Option PyErr`
component of the result; an exception caught inside a method (the
`try/except IndexError` of `removePoint`) is reported as the logged-warning
flag instead.
-/

namespace Labelme

/-- A 2-D point with exact rational coordinates, modelling Qt's `QPointF`
(whose `==` compares both coordinates exactly). -/
structure QPointF where
  x : ℚ
  y : ℚ
deriving DecidableEq, Repr

/-- One row of the numpy coordinate buffer `poly_array`: the pair (x, y). -/
abbrev Row : Type := ℚ × ℚ

/-- The validated shape types of `Shape.shape_type` (see the setter's list). -/
inductive ShapeType
  | polygon
  | trace
  | rectangle
  | point
  | line
  | circle
  | linestrip
deriving DecidableEq, Repr

/-- The state of a `Shape` relevant to the geometry/editing core:
the point list `self.points`, the derived buffer `self.poly_array`
(`none` models Python `None`), the `_closed` flag and the shape type. -/
structure Shape where
  shape_type : ShapeType
  points : List QPointF
  poly_array : Option (List Row)
  closed : Bool
deriving DecidableEq, Repr

/-- The row of the coordinate buffer corresponding to a point: `[p.x(), p.y()]`. -/
def rowOf (p : QPointF) : Row := (p.x, p.y)

/-- The consistency invariant between `points` and `poly_array`: the buffer is
initialized and has exactly one row per point, row i equal to (points[i].x, points[i].y). -/
def consistent (s : Shape) : Prop :=
  s.poly_array = some (s.points.map rowOf)

/-- Errors of the Python/numpy runtime that can escape a method uncaught. -/
inductive PyErr
  | indexError
  | typeError
deriving DecidableEq, Repr

/-- Python `list.insert` clamps its index into [0, len]: a negative index
counts from the end and is clamped below at 0; an index beyond the length
is clamped to the length.  This computes the effective insertion position. -/
def pyInsertPos (n : Nat) (i : Int) : Nat :=
  if i < 0 then ((n : Int) + i).toNat else min i.toNat n

/-- Python `list.insert(i, a)`: never fails, clamping the index. -/
def pyInsert (l : List α) (i : Int) (a : α) : List α :=
  l.insertIdx (pyInsertPos l.length i) a

/-- Resolution of a Python/numpy item index against length `n`:
valid exactly when -n ≤ i < n, a negative index counting from the end. -/
def pyIndex (n : Nat) (i : Int) : Option Nat :=
  if 0 ≤ i ∧ i < (n : Int) then some i.toNat
  else if -(n : Int) ≤ i ∧ i < 0 then some ((n : Int) + i).toNat
  else none

/-- Python `list.pop(i)`: `none` models the `IndexError` raised for an index
outside [-n, n-1]; otherwise returns the remaining list and the popped element. -/
def pyPop (l : List α) (i : Int) : Option (List α × α) :=
  match pyIndex l.length i with
  | none => none
  | some k =>
    match l[k]? with
    | none => none
    | some a => some (l.eraseIdx k, a)

/-- numpy `np.delete(arr, i, axis=0)` on an n-row buffer: `none` models the
`IndexError` raised for an index outside [-n, n-1]; otherwise removes row i. -/
def npDelete (arr : List Row) (i : Int) : Option (List Row) :=
  (pyIndex arr.length i).map (fun k => arr.eraseIdx k)

/-- Embeds `Shape.init_poly_array`: rebuilds the buffer from the full point list. -/
def init_poly_array (s : Shape) : Shape :=
  { s with poly_array := some (s.points.map rowOf) }

/-- Embeds `Shape.addPoint`.  If `points` is non-empty and the new point equals
`points[0]` (encoded as `head? = some p`), only `close()` runs, setting `_closed`.
Otherwise the point is appended to `points`; then, if `poly_array` is `None`,
`init_poly_array` rebuilds it from the full (already extended) point list and the
method returns; otherwise `np.append(..., [[x, y]], axis=0)` appends one row. -/
def addPoint (s : Shape) (p : QPointF) : Shape :=
  if s.points.head? = some p then { s with closed := true }
  else
    let s' := { s with points := s.points ++ [p] }
    match s.poly_array with
    | none => init_poly_array s'
    | some arr => { s' with poly_array := some (arr ++ [rowOf p]) }

/-- Embeds `Shape.popPoint`.  On an empty point list it returns `None` and changes
nothing.  Otherwise it drops the last buffer row (`poly_array[:-1]`) and pops the
last point; slicing an uninitialized (`None`) buffer raises `TypeError` before
`points` is touched. -/
def popPoint (s : Shape) : Shape × Option QPointF × Option PyErr :=
  match s.points with
  | [] => (s, none, none)
  | _ =>
    match s.poly_array with
    | none => (s, none, some PyErr.typeError)
    | some arr =>
      ({ s with points := s.points.dropLast, poly_array := some arr.dropLast },
       s.points.getLast?, none)

/-- Embeds `Shape.insertPoint`.  `self.points.insert(i, point)` always mutates
`points` (Python clamps the index).  The next statement calls
`np.insert(self.poly_array, i, np.array([x, y]))` but DISCARDS its result (numpy's
`insert` is non-mutating), so `poly_array` is never changed.  With the default
`axis=None`, numpy first flattens the n×2 buffer to length 2n and raises
`IndexError` exactly when `i > 2n` or `i < -2n`; that exception propagates to the
caller after `points` was already mutated.  An uninitialized (`None`) buffer is
modelled as an escaping error and is not exercised by any theorem below. -/
def insertPoint (s : Shape) (i : Int) (p : QPointF) : Shape × Option PyErr :=
  ({ s with points := pyInsert s.points i p },
   match s.poly_array with
   | none => some PyErr.typeError
   | some arr =>
     if 2 * (arr.length : Int) < i ∨ i < -(2 * (arr.length : Int)) then
       some PyErr.indexError
     else none)

/-- Embeds `Shape.removePoint`.  Inside a `try/except IndexError` it first pops
`points[i]` and then assigns `np.delete(poly_array, i, axis=0)`.  An `IndexError`
from either call is caught and logged (the `Bool` component); a pop that already
succeeded is not undone.  Deleting from an uninitialized (`None`) buffer raises an
error that is not an `IndexError` and escapes (not exercised by the theorems). -/
def removePoint (s : Shape) (i : Int) : Shape × Bool × Option PyErr :=
  match pyPop s.points i with
  | none => (s, true, none)
  | some (pts, _) =>
    match s.poly_array with
    | none => ({ s with points := pts }, false, some PyErr.typeError)
    | some arr =>
      match npDelete arr i with
      | none => ({ s with points := pts }, true, none)
      | some arr' => ({ s with points := pts, poly_array := some arr' }, false, none)

/-- Embeds `Shape.moveBy`: translates every point and, when the buffer is
initialized, every buffer row; an uninitialized buffer raises `TypeError`
after `points` was already rebuilt. -/
def moveBy (s : Shape) (off : QPointF) : Shape × Option PyErr :=
  let pts := s.points.map (fun p => QPointF.mk (p.x + off.x) (p.y + off.y))
  match s.poly_array with
  | none => ({ s with points := pts }, some PyErr.typeError)
  | some arr =>
    ({ s with points := pts
              poly_array := some (arr.map (fun r => (r.1 + off.x, r.2 + off.y))) }, none)

/-- Embeds `Shape.moveVertexBy`: translates `points[i]` and then buffer row i;
Python and numpy item indexing both accept indices in [-n, n-1] and raise
`IndexError` otherwise (for `points[i]` the read raises before any mutation). -/
def moveVertexBy (s : Shape) (i : Int) (off : QPointF) : Shape × Option PyErr :=
  match pyIndex s.points.length i with
  | none => (s, some PyErr.indexError)
  | some k =>
    match s.points[k]? with
    | none => (s, some PyErr.indexError)
    | some p =>
      let s1 := { s with points := s.points.set k (QPointF.mk (p.x + off.x) (p.y + off.y)) }
      match s.poly_array with
      | none => (s1, some PyErr.typeError)
      | some arr =>
        match pyIndex arr.length i with
        | none => (s1, some PyErr.indexError)
        | some k2 =>
          match arr[k2]? with
          | none => (s1, some PyErr.indexError)
          | some r =>
            ({ s1 with poly_array := some (arr.set k2 (r.1 + off.x, r.2 + off.y)) }, none)

/-- The squared Euclidean distance from buffer row `r` to the query point `q`,
as computed rowwise by `nearestVertex`: `np.sum((poly_array - [qx, qy])**2, axis=1)`. -/
def sqDist (r : Row) (q : QPointF) : ℚ :=
  (r.1 - q.x) ^ 2 + (r.2 - q.y) ^ 2

/-- The binary minimum of two rationals, written out as a conditional so that
it evaluates by kernel reduction; equal to `min` (see `rmin_eq_min`). -/
def rmin (a b : ℚ) : ℚ := if a ≤ b then a else b

/-- numpy `np.min` of a non-empty list (left fold of the minimum over the
elements); the empty case (where numpy raises `ValueError`) is given the junk
value 0 and is never reached by `nearestVertex` below. -/
def listMin : List ℚ → ℚ
  | [] => 0
  | x :: xs => xs.foldl rmin x

/-- numpy `np.argmin`: the index of the FIRST occurrence of the minimum
(numpy's documented tie-break), here the first index of `listMin`. -/
def npArgmin (l : List ℚ) : Nat := l.indexOf (listMin l)

/-- Embeds `Shape.nearestVertex`.  Computes the squared distance from the query
point to every buffer row and branches on `np.sqrt(np.min(dist)) < epsilon`,
rendered exactly over the rationals as `0 < eps ∧ min < eps²` (for `m ≥ 0`,
`√m < e` holds iff `0 < e` and `m < e²`; see `nearestVertex_cond_iff_sqrt`).
The outer `Option` is `none` when the call raises: on an uninitialized (`None`)
buffer the subtraction raises `TypeError`, and on an empty buffer `np.min`
raises `ValueError`. -/
def nearestVertex (s : Shape) (q : QPointF) (eps : ℚ) :
    Option (Option Nat × Option Nat) :=
  match s.poly_array with
  | none => none
  | some arr =>
    if arr = [] then none
    else
      let dist := arr.map (fun r => sqDist r q)
      if 0 < eps ∧ listMin dist < eps ^ 2 then some (some (npArgmin dist), none)
      else some (none, some (npArgmin dist))

/-- Python slice-endpoint resolution against length `n`: a negative endpoint
counts from the end (clamped below at 0), a non-negative one is clamped at `n`. -/
def pySlicePos (n : Nat) (i : Int) : Nat :=
  if i < 0 then ((n : Int) + i).toNat else min i.toNat n

/-- Python/numpy slice `l[a:b]` (rows of `poly_array`). -/
def pySlice (l : List α) (a b : Int) : List α :=
  (l.drop (pySlicePos l.length a)).take (pySlicePos l.length b - pySlicePos l.length a)

/-- The wraparound edge `np.array([poly_array[-1], poly_array[0]])` joining the
last vertex back to the first; on an empty buffer (where the real indexing would
raise) this gives the empty line, which no theorem below exercises. -/
def wrapEdge (arr : List Row) : List Row :=
  match arr.getLast?, arr.head? with
  | some a, some b => [a, b]
  | _, _ => []

/-- The forward candidate of one `nearestEdge` iteration: for loop index `i`,
the (possibly reduced modulo the length) index actually returned together with
the tested line, following the `i == 0` / `i == lenght` / `i % lenght` branches. -/
def linePos (arr : List Row) (L : Nat) (i : Int) : Int × List Row :=
  if i = 0 then (0, wrapEdge arr)
  else if i = (L : Int) then ((L : Int), wrapEdge arr)
  else
    let i2 := i % (L : Int)
    (i2, pySlice arr (i2 - 1) (i2 + 1))

/-- The backward candidate line of one `nearestEdge` iteration for loop index `j`,
following the `j > 0 or j < -1` / `j == 0` / `j == -1` branches. -/
def lineNeg (arr : List Row) (j : Int) : List Row :=
  if 0 < j ∨ j < -1 then pySlice arr (j - 1) (j + 1)
  else if j = 0 then wrapEdge arr
  else pySlice arr 0 2

/-- Modelled from the spec: `labelme.utils.distancetoline` is not under `src/`;
per the spec it computes the perpendicular point-to-segment distance.  This is
its exact squared value for the segment from `a` to `b`: the squared distance
from `q` to the closest point `a + t·(b − a)`, `t` clamped into [0, 1] (a
degenerate segment gives the squared distance to `a`). -/
def segDistSq (q : QPointF) (a b : Row) : ℚ :=
  let vx := b.1 - a.1
  let vy := b.2 - a.2
  let wx := q.x - a.1
  let wy := q.y - a.2
  let den := vx ^ 2 + vy ^ 2
  if den = 0 then wx ^ 2 + wy ^ 2
  else
    let t0 := (wx * vx + wy * vy) / den
    let t := if t0 ≤ 0 then 0 else if 1 ≤ t0 then 1 else t0
    (wx - t * vx) ^ 2 + (wy - t * vy) ^ 2

/-- Modelled from the spec: the test `distancetoline(point, line) <= epsilon`,
rendered exactly over the rationals — for a two-row line the distance (the
non-negative square root of `segDistSq`) is ≤ `eps` iff `0 ≤ eps` and
`segDistSq ≤ eps²`.  A line that is not a two-row array would make the real
`distancetoline` fail; such lines are treated as non-hits and are not exercised
by the theorems below. -/
def lineDistLE (q : QPointF) (line : List Row) (eps : ℚ) : Bool :=
  match line with
  | [a, b] => decide (0 ≤ eps) && decide (segDistSq q a b ≤ eps ^ 2)
  | _ => false

/-- One iteration of the `nearestEdge` loop at the index pair `(i, j)`:
if the forward line is within `epsilon` return the (adjusted) forward index,
else if the backward line is within `epsilon` return `j`, else keep scanning. -/
def neStep (arr : List Row) (L : Nat) (q : QPointF) (eps : ℚ) (ij : Int × Int) :
    Option Int :=
  let fwd := linePos arr L ij.1
  if lineDistLE q fwd.2 eps then some fwd.1
  else if lineDistLE q (lineNeg arr ij.2) eps then some ij.2
  else none

/-- The index pairs scanned by `nearestEdge`:
`zip(range(m, m + h), range(m, m - h, -1))` yields `(m + k, m - k)` for `k < h`. -/
def nePairs (m : Int) (h : Nat) : List (Int × Int) :=
  (List.range h).map (fun k => (m + (k : Int), m - (k : Int)))

/-- The `nearestEdge` scanning loop with its early returns. -/
def neLoop (arr : List Row) (L : Nat) (q : QPointF) (eps : ℚ) :
    List (Int × Int) → Option Int
  | [] => none
  | ij :: rest =>
    match neStep arr L q eps ij with
    | some r => some r
    | none => neLoop arr L q eps rest

/-- Embeds `Shape.nearestEdge` on the coordinate buffer `poly_array = arr`:
scans `int(lenght / 2)` index pairs outward from `minDistIndex = m`.  The
wall-clock cache (`self.prev_val` returned when `time.time()` falls within
0.005 s of a whole second) is omitted: this models a call on which that cache
does not fire, e.g. any first call, where `prev_val` is still `None`. -/
def nearestEdge (arr : List Row) (q : QPointF) (eps : ℚ) (m : Int) : Option Int :=
  neLoop arr arr.length q eps (nePairs m (arr.length / 2))

/-- Embeds `Shape.getRectFromLine`: the `QRectF(x1, y1, x2 - x1, y2 - y1)`
parameters (left, top, width, height) spanned by two corner points. -/
def getRectFromLine (p1 p2 : QPointF) : ℚ × ℚ × ℚ × ℚ :=
  (p1.x, p1.y, p2.x - p1.x, p2.y - p1.y)

/-- Embeds `Shape.getCircleRectFromLine`: `None` unless the line has exactly two
points; otherwise, with `c = line[0]` and `d = sqrt((c.x − p.x)² + (c.y − p.y)²)`,
the code returns `QRectF(c.x − d, c.y − d, 2d, 2d)`.  Since `d` is irrational in
general, the model returns the exact triple `(c.x, c.y, d²)` that determines
that rectangle. -/
def getCircleRectFromLine (line : List QPointF) : Option (ℚ × ℚ × ℚ) :=
  match line with
  | [c, p] => some (c.x, c.y, (c.x - p.x) ^ 2 + (c.y - p.y) ^ 2)
  | _ => none

/-- The geometric path handed to the external Qt renderer, as built by
`makePath`: an empty `QPainterPath`, a rectangle (by its `QRectF` parameters),
the ellipse inscribed in the circle rectangle (by the `(c.x, c.y, d²)` triple of
`getCircleRectFromLine`), or the polyline `moveTo(points[0]); lineTo(...)`. -/
inductive PathR
  | emptyPath
  | rect (x y w h : ℚ)
  | circleIn (cx cy dSq : ℚ)
  | polyline (start : QPointF) (rest : List QPointF)
deriving DecidableEq, Repr

/-- Embeds `Shape.makePath`.  For `rectangle` and `circle` the path stays empty
unless exactly two points exist; every other shape type unconditionally reads
`points[0]` (`QPainterPath(self.points[0])`), so on an empty point list the call
raises `IndexError`, modelled as `none`. -/
def makePath (s : Shape) : Option PathR :=
  match s.shape_type with
  | ShapeType.rectangle =>
    match s.points with
    | [p1, p2] =>
      let r := getRectFromLine p1 p2
      some (PathR.rect r.1 r.2.1 r.2.2.1 r.2.2.2)
    | _ => some PathR.emptyPath
  | ShapeType.circle =>
    match s.points with
    | [_, _] =>
      match getCircleRectFromLine s.points with
      | some r => some (PathR.circleIn r.1 r.2.1 r.2.2)
      | none => none
    | _ => some PathR.emptyPath
  | _ =>
    match s.points with
    | [] => none
    | p :: rest => some (PathR.polyline p rest)

/-- The list of squared vertex distances `nearestVertex` computes for a shape
whose buffer satisfies `consistent`: one entry per point, in order. -/
def vertexDists (s : Shape) (q : QPointF) : List ℚ :=
  (s.points.map rowOf).map (fun r => sqDist r q)

/-- `a` is the first index attaining the minimum of `l`: it is in range, its
entry is a lower bound of all entries, and every earlier entry is strictly larger. -/
def isFirstArgmin (l : List ℚ) (a : Nat) : Prop :=
  a < l.length ∧ (∀ k, k < l.length → l.getD a 0 ≤ l.getD k 0) ∧
    (∀ k, k < a → l.getD a 0 < l.getD k 0)

/-- A consistent one-point polygon shape, used as a concrete test state. -/
def shapeA : Shape := ⟨ShapeType.polygon, [⟨0, 0⟩], some [(0, 0)], false⟩

/-- A consistent two-point polygon shape, used as a concrete test state. -/
def shapeAB : Shape :=
  ⟨ShapeType.polygon, [⟨0, 0⟩, ⟨1, 0⟩], some [(0, 0), (1, 0)], false⟩

/-- The open three-point polyline of the spec's `addPoint` closing example. -/
def shapeTri : Shape :=
  ⟨ShapeType.polygon, [⟨0, 0⟩, ⟨10, 0⟩, ⟨10, 10⟩],
    some [(0, 0), (10, 0), (10, 10)], false⟩

/-- The coordinate buffer of the spec's closed 10×10 square example. -/
def square4 : List Row := [(0, 0), (10, 0), (10, 10), (0, 10)]

/-- The closed 10×10 square shape of the spec's hit-testing examples. -/
def shapeSq : Shape :=
  ⟨ShapeType.polygon, [⟨0, 0⟩, ⟨10, 0⟩, ⟨10, 10⟩, ⟨0, 10⟩], some square4, true⟩

/-- Embeds `Shape.containsPoint`: builds the path with `makePath` and hands it,
with the query point, to the external Qt call `QPainterPath.contains` (Qt is
outside this repository); the model returns the pair passed to that call, and
`none` when `makePath` itself raises. -/
def containsPoint (s : Shape) (q : QPointF) : Option (PathR × QPointF) :=
  (makePath s).map (fun pa => (pa, q))

/-- Embeds `Shape.boundingRect`: builds the path with `makePath` and hands it to
the external Qt call `QPainterPath.boundingRect`; the model returns the path
passed to that call, and `none` when `makePath` itself raises. -/
def boundingRect (s : Shape) : Option PathR :=
  makePath s

/-! ### Supporting lemmas -/

theorem pyIndex_eq_none {n : Nat} {i : Int} (h : (n : Int) ≤ i ∨ i < -(n : Int)) :
    pyIndex n i = none := by
  unfold pyIndex
  rw [if_neg (by omega), if_neg (by omega)]

theorem pyIndex_eq_some_of_neg {n : Nat} {i : Int} (h1 : -(n : Int) ≤ i) (h2 : i < 0) :
    pyIndex n i = some ((n : Int) + i).toNat := by
  unfold pyIndex
  rw [if_neg (by omega), if_pos ⟨h1, h2⟩]

theorem rmin_eq_min (a b : ℚ) : rmin a b = min a b := (min_def a b).symm

theorem foldl_rmin_eq_min (l : List ℚ) (x : ℚ) : l.foldl rmin x = l.foldl min x := by
  have h : rmin = fun a b : ℚ => min a b :=
    funext fun a => funext fun b => rmin_eq_min a b
  rw [h]

theorem foldl_min_le_init (l : List ℚ) (x : ℚ) : l.foldl min x ≤ x := by
  induction l generalizing x with
  | nil => exact le_refl x
  | cons y ys ih => exact le_trans (ih (min x y)) (min_le_left x y)

theorem foldl_min_mem (l : List ℚ) (x : ℚ) :
    l.foldl min x = x ∨ l.foldl min x ∈ l := by
  induction l generalizing x with
  | nil => exact Or.inl rfl
  | cons y ys ih =>
    rcases ih (min x y) with h | h
    · rcases min_choice x y with hxy | hxy
      · exact Or.inl (by show ys.foldl min (min x y) = x; rw [h, hxy])
      · refine Or.inr ?_
        show ys.foldl min (min x y) ∈ y :: ys
        rw [h, hxy]
        exact List.mem_cons_self y ys
    · exact Or.inr (List.mem_cons_of_mem y h)

theorem foldl_min_le_mem (l : List ℚ) (x : ℚ) : ∀ a ∈ l, l.foldl min x ≤ a := by
  induction l generalizing x with
  | nil => intro a ha; cases ha
  | cons y ys ih =>
    intro a ha
    rcases List.mem_cons.mp ha with rfl | ha
    · exact le_trans (foldl_min_le_init ys (min x a)) (min_le_right x a)
    · exact ih (min x y) a ha

theorem listMin_mem {l : List ℚ} (h : l ≠ []) : listMin l ∈ l := by
  match l with
  | [] => exact absurd rfl h
  | x :: xs =>
    show xs.foldl rmin x ∈ x :: xs
    rw [foldl_rmin_eq_min]
    rcases foldl_min_mem xs x with h1 | h1
    · rw [h1]; exact List.mem_cons_self x xs
    · exact List.mem_cons_of_mem x h1

theorem listMin_le {l : List ℚ} : ∀ a ∈ l, listMin l ≤ a := by
  match l with
  | [] => intro a ha; cases ha
  | x :: xs =>
    intro a ha
    show xs.foldl rmin x ≤ a
    rw [foldl_rmin_eq_min]
    rcases List.mem_cons.mp ha with rfl | ha
    · exact foldl_min_le_init xs a
    · exact foldl_min_le_mem xs x a ha

theorem getD_ne_of_lt_indexOf {l : List ℚ} {a : ℚ} :
    ∀ k, k < l.indexOf a → l.getD k 0 ≠ a := by
  induction l with
  | nil => intro k hk; exact absurd hk (by simp)
  | cons x xs ih =>
    intro k hk
    by_cases hx : x = a
    · subst hx
      rw [List.indexOf_cons_self] at hk
      exact absurd hk (Nat.not_lt_zero k)
    · rw [List.indexOf_cons_ne _ hx] at hk
      match k with
      | 0 => simpa using hx
      | k' + 1 =>
        show xs.getD k' 0 ≠ a
        exact ih k' (Nat.lt_of_succ_lt_succ hk)

theorem getD_eq_getElem_of_lt {l : List ℚ} {k : Nat} (h : k < l.length) :
    l.getD k 0 = l[k] := by
  rw [List.getD_eq_getElem?_getD, List.getElem?_eq_getElem h]
  rfl

theorem npArgmin_isFirstArgmin {l : List ℚ} (h : l ≠ []) :
    isFirstArgmin l (npArgmin l) := by
  have hmem : listMin l ∈ l := listMin_mem h
  have hlt : l.indexOf (listMin l) < l.length := List.indexOf_lt_length.mpr hmem
  have hval : l.getD (npArgmin l) 0 = listMin l := by
    rw [npArgmin, getD_eq_getElem_of_lt hlt]
    exact List.indexOf_get hlt
  refine ⟨hlt, ?_, ?_⟩
  · intro k hk
    rw [hval, getD_eq_getElem_of_lt hk]
    exact listMin_le _ (List.get_mem l k hk)
  · intro k hk
    have hkl : k < l.length := lt_trans hk hlt
    have hne : l.getD k 0 ≠ listMin l := getD_ne_of_lt_indexOf k hk
    have hle : listMin l ≤ l.getD k 0 := by
      rw [getD_eq_getElem_of_lt hkl]
      exact listMin_le _ (List.get_mem l k hkl)
    rw [hval]
    exact lt_of_le_of_ne hle (fun he => hne he.symm)

/-- The branch test of `nearestVertex`, `np.sqrt(np.min(dist)) < epsilon`, in
its exact rational rendering: for any rational `m`, `√m < eps` over the reals
holds iff `0 < eps` and `m < eps²`. -/
theorem nearestVertex_cond_iff_sqrt (m eps : ℚ) :
    (0 < eps ∧ m < eps ^ 2) ↔ Real.sqrt ((m : ℚ) : ℝ) < ((eps : ℚ) : ℝ) := by
  constructor
  · rintro ⟨h1, h2⟩
    rw [Real.sqrt_lt' (by exact_mod_cast h1)]
    exact_mod_cast h2
  · intro hs
    have he : (0 : ℝ) < ((eps : ℚ) : ℝ) := lt_of_le_of_lt (Real.sqrt_nonneg _) hs
    have h1 : (0 : ℚ) < eps := by exact_mod_cast he
    refine ⟨h1, ?_⟩
    rw [Real.sqrt_lt' he] at hs
    exact_mod_cast hs

theorem neStep_eq_none_iff (arr : List Row) (L : Nat) (q : QPointF) (eps : ℚ)
    (ij : Int × Int) :
    neStep arr L q eps ij = none ↔
      lineDistLE q (linePos arr L ij.1).2 eps = false ∧
      lineDistLE q (lineNeg arr ij.2) eps = false := by
  unfold neStep
  rcases h1 : lineDistLE q (linePos arr L ij.1).2 eps with _ | _
  · rcases h2 : lineDistLE q (lineNeg arr ij.2) eps with _ | _
    · simp [h1, h2]
    · simp [h1, h2]
  · simp [h1]

theorem neLoop_eq_findSome (arr : List Row) (L : Nat) (q : QPointF) (eps : ℚ) :
    ∀ l : List (Int × Int), neLoop arr L q eps l = l.findSome? (neStep arr L q eps) := by
  intro l
  induction l with
  | nil => rfl
  | cons ij rest ih =>
    show (match neStep arr L q eps ij with
          | some r => some r
          | none => neLoop arr L q eps rest) = _
    rw [List.findSome?_cons]
    rcases h : neStep arr L q eps ij with _ | r
    · simpa [h] using ih
    · simp [h]

theorem lineDistLE_left_edge_false :
    lineDistLE ⟨5, 0⟩ [(0, 10), (0, 0)] (1/2) = false := by
  show (decide ((0 : ℚ) ≤ 1/2) &&
    decide (segDistSq ⟨5, 0⟩ (0, 10) (0, 0) ≤ (1/2 : ℚ) ^ 2)) = false
  have hv : segDistSq ⟨5, 0⟩ (0, 10) (0, 0) = 25 := by norm_num [segDistSq]
  rw [hv, decide_eq_false (by norm_num : ¬ (25 : ℚ) ≤ (1/2 : ℚ) ^ 2), Bool.and_false]

theorem lineDistLE_bottom_edge_true :
    lineDistLE ⟨5, 0⟩ [(0, 0), (10, 0)] (1/2) = true := by
  show (decide ((0 : ℚ) ≤ 1/2) &&
    decide (segDistSq ⟨5, 0⟩ (0, 0) (10, 0) ≤ (1/2 : ℚ) ^ 2)) = true
  have hv : segDistSq ⟨5, 0⟩ (0, 0) (10, 0) = 0 := by norm_num [segDistSq]
  rw [hv, decide_eq_true (by norm_num : (0 : ℚ) ≤ 1/2),
    decide_eq_true (by norm_num : (0 : ℚ) ≤ (1/2 : ℚ) ^ 2), Bool.and_self]

theorem nearestEdge_square4_eval : nearestEdge square4 ⟨5, 0⟩ (1/2) 0 = some 1 := by
  have hstep1 : neStep square4 4 ⟨5, 0⟩ (1/2) (0, 0) = none := by
    show (if lineDistLE ⟨5, 0⟩ [(0, 10), (0, 0)] (1/2) = true then some 0
          else if lineDistLE ⟨5, 0⟩ [(0, 10), (0, 0)] (1/2) = true then some 0
          else none) = none
    rw [lineDistLE_left_edge_false]
    rfl
  have hstep2 : neStep square4 4 ⟨5, 0⟩ (1/2) (1, -1) = some 1 := by
    show (if lineDistLE ⟨5, 0⟩ [(0, 0), (10, 0)] (1/2) = true then some 1
          else if lineDistLE ⟨5, 0⟩ [(0, 0), (10, 0)] (1/2) = true then some (-1)
          else none) = some 1
    rw [lineDistLE_bottom_edge_true]
    rfl
  have hp : nePairs 0 (square4.length / 2) = [(0, 0), (1, -1)] := rfl
  show neLoop square4 square4.length ⟨5, 0⟩ (1/2) (nePairs 0 (square4.length / 2)) = some 1
  rw [hp]
  show neLoop square4 4 ⟨5, 0⟩ (1/2) [(0, 0), (1, -1)] = some 1
  unfold neLoop
  simp only [hstep1]
  unfold neLoop
  simp only [hstep2]

/-! ### Claim theorems -/

/-- C1: the spec claims that after every mutating operation (with arguments
meeting its preconditions) the coordinate buffer has exactly one row per point,
row i equal to the coordinates of point i.  The code violates this at
`insertPoint`: on the consistent one-point shape `shapeA`, the in-range call
`insertPoint(0, (1,1))` returns without error with two points but still only
one buffer row (the result of `np.insert` is discarded, so `poly_array` is
never updated). -/
theorem C1_insertPoint_breaks_invariant :
    consistent shapeA ∧
    (insertPoint shapeA 0 ⟨1, 1⟩).2 = none ∧
    (insertPoint shapeA 0 ⟨1, 1⟩).1.points.length = 2 ∧
    (insertPoint shapeA 0 ⟨1, 1⟩).1.poly_array = some [(0, 0)] ∧
    ¬ consistent (insertPoint shapeA 0 ⟨1, 1⟩).1 := by
  refine ⟨rfl, rfl, rfl, rfl, ?_⟩
  unfold consistent
  decide

/-- C2 counterexample: the claim says an index outside [0, n] makes
`insertPoint` fail with an index-out-of-range error and leave both structures
unchanged.  On the consistent two-point shape `shapeAB`, `insertPoint(3, (5,5))`
(3 is outside [0, 2]) raises nothing and mutates `points`. -/
theorem C2_counterexample :
    (insertPoint shapeAB 3 ⟨5, 5⟩).2 = none ∧
    (insertPoint shapeAB 3 ⟨5, 5⟩).1.points ≠ shapeAB.points := by
  refine ⟨rfl, ?_⟩
  intro h
  simp [insertPoint, shapeAB, pyInsert, pyInsertPos] at h

/-- C2 amended: for a consistent shape with n points and an index i outside
[0, n], `insertPoint(i, p)` always mutates `points` — Python's `list.insert`
clamps the index (i > n appends at the end, i < −n prepends, and a negative
−n ≤ i inserts at position n + i) — while the coordinate buffer is left
unchanged (the `np.insert` result is discarded); an `IndexError` propagates
exactly when i exceeds the bounds ±2n of the flattened 2n-element buffer, and
even then `points` stays mutated. -/
theorem C2_insertPoint_out_of_range (s : Shape) (i : Int) (p : QPointF)
    (hc : consistent s) (hi : (s.points.length : Int) < i ∨ i < 0) :
    (insertPoint s i p).1.points.length = s.points.length + 1 ∧
    (insertPoint s i p).1.poly_array = s.poly_array ∧
    ((s.points.length : Int) < i → (insertPoint s i p).1.points = s.points ++ [p]) ∧
    (i < -(s.points.length : Int) → (insertPoint s i p).1.points = p :: s.points) ∧
    (-(s.points.length : Int) ≤ i → i < 0 →
      (insertPoint s i p).1.points =
        s.points.insertIdx ((s.points.length : Int) + i).toNat p) ∧
    ((insertPoint s i p).2 ≠ none ↔
      2 * (s.points.length : Int) < i ∨ i < -(2 * (s.points.length : Int))) := by
  rcases hp : s.poly_array with _ | arr
  · rw [consistent, hp] at hc; exact absurd hc (by simp)
  have harr : arr.length = s.points.length := by
    rw [consistent, hp] at hc
    rw [Option.some_inj] at hc
    rw [hc, List.length_map]
  have hfst : (insertPoint s i p).1 = { s with points := pyInsert s.points i p } := rfl
  have hsnd : (insertPoint s i p).2 =
      if 2 * (arr.length : Int) < i ∨ i < -(2 * (arr.length : Int)) then
        some PyErr.indexError else none := by
    show (match s.poly_array with
      | none => some PyErr.typeError
      | some arr =>
        if 2 * (arr.length : Int) < i ∨ i < -(2 * (arr.length : Int)) then
          some PyErr.indexError
        else none) = _
    rw [hp]
  have hpos_le : pyInsertPos s.points.length i ≤ s.points.length := by
    unfold pyInsertPos
    split <;> omega
  refine ⟨?_, ?_, ?_, ?_, ?_, ?_⟩
  · rw [hfst]
    exact List.length_insertIdx _ _ hpos_le
  · rw [hfst]
    exact hp
  · intro hgt
    rw [hfst]
    show (pyInsert s.points i p) = s.points ++ [p]
    unfold pyInsert pyInsertPos
    rw [if_neg (by omega)]
    have : min i.toNat s.points.length = s.points.length := by omega
    rw [this, List.insertIdx_length_self]
  · intro hlt
    rw [hfst]
    show (pyInsert s.points i p) = p :: s.points
    unfold pyInsert pyInsertPos
    rw [if_pos (by omega)]
    have : ((s.points.length : Int) + i).toNat = 0 := by omega
    rw [this, List.insertIdx_zero]
  · intro h1 h2
    rw [hfst]
    show (pyInsert s.points i p) = _
    unfold pyInsert pyInsertPos
    rw [if_pos h2]
  · rw [hsnd, harr]
    by_cases hcond :
        2 * (s.points.length : Int) < i ∨ i < -(2 * (s.points.length : Int))
    · rw [if_pos hcond]
      simpa using hcond
    · rw [if_neg hcond]
      simpa using hcond

/-- C2 witness: the amended statement evaluated on the two-point shape at
index 3: `points` grows by one while the buffer is untouched. -/
theorem C2_witness :
    (insertPoint shapeAB 3 ⟨5, 5⟩).1.points.length = shapeAB.points.length + 1 ∧
    (insertPoint shapeAB 3 ⟨5, 5⟩).1.poly_array = shapeAB.poly_array :=
  ⟨(C2_insertPoint_out_of_range shapeAB 3 ⟨5, 5⟩ rfl (by decide)).1,
   (C2_insertPoint_out_of_range shapeAB 3 ⟨5, 5⟩ rfl (by decide)).2.1⟩

/-- C3: the spec's round-trip law — `insertPoint(i, p)` then `removePoint(i)`
restores both `points` and `coords` — fails on the code because `insertPoint`
never extends the buffer: on the consistent one-point shape `shapeA`, inserting
(5,5) at 0 and removing index 0 restores `points` but leaves the buffer empty
(`np.delete` removed the original row 0 of the never-extended buffer). -/
theorem C3_roundtrip_bug :
    consistent shapeA ∧
    (removePoint (insertPoint shapeA 0 ⟨5, 5⟩).1 0).1.points = shapeA.points ∧
    (removePoint (insertPoint shapeA 0 ⟨5, 5⟩).1 0).1.poly_array = some [] ∧
    shapeA.poly_array = some [(0, 0)] := by
  exact ⟨rfl, rfl, rfl, rfl⟩

/-- C7: for a consistent shape with n points and an out-of-range index
(i ≥ n or i < −n), `removePoint(i)` only logs a warning: the `IndexError`
raised by `points.pop(i)` is caught before anything is mutated, so the state is
returned exactly as it was and no exception escapes. -/
theorem C7_removePoint_out_of_range (s : Shape) (i : Int)
    (hc : consistent s)
    (hi : (s.points.length : Int) ≤ i ∨ i < -(s.points.length : Int)) :
    removePoint s i = (s, true, none) := by
  unfold removePoint pyPop
  rw [pyIndex_eq_none hi]

/-- C7 witness: on the closed square shape, `removePoint(10)` logs and is a no-op. -/
theorem C7_witness : removePoint shapeSq 10 = (shapeSq, true, none) :=
  C7_removePoint_out_of_range shapeSq 10 rfl (by decide)

/-- C9: a negative index −n ≤ i ≤ −1 is NOT treated as out of range by
`removePoint`: both Python's `pop` and numpy's `delete` count it from the end,
so the element at position n + i is removed from both `points` and the buffer,
nothing is logged and no exception escapes. -/
theorem C9_removePoint_neg_index (s : Shape) (i : Int)
    (hc : consistent s)
    (h1 : -(s.points.length : Int) ≤ i) (h2 : i ≤ -1) :
    removePoint s i =
      ({ s with points := s.points.eraseIdx ((s.points.length : Int) + i).toNat
                poly_array := some ((s.points.map rowOf).eraseIdx
                  ((s.points.length : Int) + i).toNat) },
       false, none) := by
  rcases hp : s.poly_array with _ | arr
  · rw [consistent, hp] at hc; exact absurd hc (by simp)
  have hc' := hc
  rw [consistent, hp, Option.some_inj] at hc'
  have hk : ((s.points.length : Int) + i).toNat < s.points.length := by omega
  have hidx : pyIndex s.points.length i = some ((s.points.length : Int) + i).toNat :=
    pyIndex_eq_some_of_neg h1 (by omega)
  have hget : s.points[((s.points.length : Int) + i).toNat]? =
      some (s.points.get ⟨((s.points.length : Int) + i).toNat, hk⟩) :=
    List.getElem?_eq_getElem hk
  have hidx2 : pyIndex arr.length i = some ((s.points.length : Int) + i).toNat := by
    rw [hc', List.length_map]
    exact hidx
  unfold removePoint pyPop npDelete
  simp only [hidx, hget, hp, hc', List.length_map, Option.map_some']

/-- C9 witness: on the closed square shape, `removePoint(-1)` removes the last
point and the last buffer row through the negative-index path. -/
theorem C9_witness :
    removePoint shapeSq (-1) =
      ({ shapeSq with
          points := shapeSq.points.eraseIdx ((shapeSq.points.length : Int) + -1).toNat
          poly_array := some ((shapeSq.points.map rowOf).eraseIdx
            ((shapeSq.points.length : Int) + -1).toNat) },
       false, none) :=
  C9_removePoint_neg_index shapeSq (-1) rfl (by decide) (by decide)

/-- C5: `addPoint` closes instead of appending exactly when the point list is
non-empty and the new point equals `points[0]` (encoded `head? = some p`);
otherwise it appends the point and the matching buffer row, first rebuilding
the buffer from the full point list when it is uninitialized.  On the open
triangle of the spec's example, adding (0,0) closes without growing. -/
theorem C5_addPoint_spec :
    (∀ (s : Shape) (p : QPointF), s.points.head? = some p →
      addPoint s p = { s with closed := true }) ∧
    (∀ (s : Shape) (p : QPointF), s.points.head? ≠ some p →
      (addPoint s p).points = s.points ++ [p] ∧
      (addPoint s p).closed = s.closed ∧
      (s.poly_array = none →
        (addPoint s p).poly_array = some ((s.points ++ [p]).map rowOf)) ∧
      (∀ arr : List Row, s.poly_array = some arr →
        (addPoint s p).poly_array = some (arr ++ [rowOf p]))) ∧
    ((addPoint shapeTri ⟨0, 0⟩).closed = true ∧
      (addPoint shapeTri ⟨0, 0⟩).points.length = 3) := by
  refine ⟨?_, ?_, by decide⟩
  · intro s p h
    unfold addPoint
    rw [if_pos h]
  · intro s p h
    have hadd : addPoint s p =
        (match s.poly_array with
         | none => init_poly_array { s with points := s.points ++ [p] }
         | some arr =>
           { s with points := s.points ++ [p], poly_array := some (arr ++ [rowOf p]) }) := by
      unfold addPoint
      rw [if_neg h]
    rcases hp : s.poly_array with _ | arr
    · rw [hadd, hp]
      exact ⟨rfl, rfl, fun _ => rfl, fun arr harr => Option.noConfusion harr⟩
    · rw [hadd, hp]
      refine ⟨rfl, rfl, fun hnone => Option.noConfusion hnone, ?_⟩
      intro arr' harr'
      rw [Option.some_inj] at harr'
      rw [harr']

/-- C5 witness: a one-point shape closed by re-adding its first point. -/
theorem C5_witness :
    addPoint ⟨ShapeType.polygon, [⟨1, 2⟩], some [(1, 2)], false⟩ ⟨1, 2⟩ =
      ⟨ShapeType.polygon, [⟨1, 2⟩], some [(1, 2)], true⟩ :=
  C5_addPoint_spec.1 ⟨ShapeType.polygon, [⟨1, 2⟩], some [(1, 2)], false⟩ ⟨1, 2⟩ rfl

/-- C8: `getCircleRectFromLine` returns nothing unless the line has exactly two
points; for a two-point line `[c, p]` it returns the data of the rectangle
`QRectF(c.x − d, c.y − d, 2d, 2d)` — the axis-aligned square of side `2d`
centered at the first point `c`, where `d` (any non-negative real whose square
is `(c.x − p.x)² + (c.y − p.y)²`) is the Euclidean distance between the two
points. -/
theorem C8_getCircleRectFromLine_spec :
    (∀ line : List QPointF, line.length ≠ 2 → getCircleRectFromLine line = none) ∧
    (∀ c p : QPointF,
      getCircleRectFromLine [c, p] =
        some (c.x, c.y, (c.x - p.x) ^ 2 + (c.y - p.y) ^ 2) ∧
      (∀ d : ℝ, 0 ≤ d →
        d ^ 2 = ((c.x - p.x : ℚ) : ℝ) ^ 2 + ((c.y - p.y : ℚ) : ℝ) ^ 2 →
        (((c.x : ℚ) : ℝ) - d) + 2 * d / 2 = ((c.x : ℚ) : ℝ) ∧
        (((c.y : ℚ) : ℝ) - d) + 2 * d / 2 = ((c.y : ℚ) : ℝ))) := by
  constructor
  · intro line h
    match line with
    | [] => rfl
    | [_] => rfl
    | [_, _] => exact absurd rfl h
    | _ :: _ :: _ :: _ => rfl
  · intro c p
    exact ⟨rfl, fun d _ _ => ⟨by ring, by ring⟩⟩

/-- C8 witness: the empty line gives no result, and for the 3-4-5 line from the
origin the returned triple carries the squared radius 25, whose root 5 centers
the square at the origin. -/
theorem C8_witness :
    getCircleRectFromLine ([] : List QPointF) = none ∧
    getCircleRectFromLine [⟨0, 0⟩, ⟨3, 4⟩] = some (0, 0, 25) := by
  constructor
  · exact C8_getCircleRectFromLine_spec.1 [] (by decide)
  · have h := (C8_getCircleRectFromLine_spec.2 ⟨0, 0⟩ ⟨3, 4⟩).1
    rw [h]
    norm_num

/-- C10: for every shape whose type is neither `rectangle` nor `circle`,
`makePath` — and with it `containsPoint` and `boundingRect`, which hand its
result to Qt — is defined exactly when the point list is non-empty (it reads
`points[0]` unconditionally and raises `IndexError` on an empty shape), while
for `rectangle` and `circle` shapes a point count other than 2 yields the empty
path instead of failing. -/
theorem C10_makePath_definedness :
    (∀ s : Shape, s.shape_type ≠ ShapeType.rectangle →
      s.shape_type ≠ ShapeType.circle →
      ((makePath s).isSome ↔ s.points ≠ []) ∧
      (∀ q : QPointF, (containsPoint s q).isSome ↔ s.points ≠ []) ∧
      ((boundingRect s).isSome ↔ s.points ≠ [])) ∧
    (∀ s : Shape,
      (s.shape_type = ShapeType.rectangle ∨ s.shape_type = ShapeType.circle) →
      s.points.length ≠ 2 → makePath s = some PathR.emptyPath) := by
  constructor
  · rintro ⟨st, pts, poly, cl⟩ h1 h2
    have hm : (makePath ⟨st, pts, poly, cl⟩).isSome ↔ pts ≠ [] := by
      cases st <;> simp_all <;> cases pts <;> simp [makePath]
    exact ⟨hm, fun q => by rw [containsPoint, Option.isSome_map']; exact hm, hm⟩
  · rintro ⟨st, pts, poly, cl⟩ h hlen
    rcases h with h | h <;> subst h
    · match pts, hlen with
      | [], _ => rfl
      | [_], _ => rfl
      | [a, b], h => exact absurd rfl h
      | _ :: _ :: _ :: _, _ => rfl
    · match pts, hlen with
      | [], _ => rfl
      | [_], _ => rfl
      | [a, b], h => exact absurd rfl h
      | _ :: _ :: _ :: _, _ => rfl

/-- C10 witness: an empty polygon has no path (and no contains/boundingRect
result), while a one-point rectangle gets the empty path. -/
theorem C10_witness :
    ¬ (makePath ⟨ShapeType.polygon, [], some [], false⟩).isSome ∧
    ¬ (containsPoint ⟨ShapeType.polygon, [], some [], false⟩ ⟨1, 1⟩).isSome ∧
    makePath ⟨ShapeType.rectangle, [⟨0, 0⟩], none, false⟩ = some PathR.emptyPath := by
  have h := C10_makePath_definedness.1 ⟨ShapeType.polygon, [], some [], false⟩
    (by decide) (by decide)
  refine ⟨?_, ?_, ?_⟩
  · intro hs
    exact ((h.1.mp hs) rfl)
  · intro hs
    exact ((h.2.1 ⟨1, 1⟩).mp hs) rfl
  · exact C10_makePath_definedness.2 ⟨ShapeType.rectangle, [⟨0, 0⟩], none, false⟩
      (Or.inl rfl) (by decide)

/-- C6: on a shape whose non-empty coordinate buffer is consistent with its
points, `nearestVertex` returns `(i, None)` — `i` the first index attaining the
minimum squared Euclidean vertex distance — exactly when the square root of
that minimum is < epsilon, and `(None, i)` with the same first-occurrence
argmin index as the fallback otherwise. -/
theorem C6_nearestVertex_spec (s : Shape) (q : QPointF) (eps : ℚ)
    (hc : consistent s) (hne : s.points ≠ []) :
    (Real.sqrt ((listMin (vertexDists s q) : ℚ) : ℝ) < ((eps : ℚ) : ℝ) →
      nearestVertex s q eps = some (some (npArgmin (vertexDists s q)), none)) ∧
    (¬ Real.sqrt ((listMin (vertexDists s q) : ℚ) : ℝ) < ((eps : ℚ) : ℝ) →
      nearestVertex s q eps = some (none, some (npArgmin (vertexDists s q)))) ∧
    isFirstArgmin (vertexDists s q) (npArgmin (vertexDists s q)) := by
  obtain ⟨st, pts, poly, cl⟩ := s
  have hpoly : poly = some (pts.map rowOf) := hc
  subst hpoly
  obtain ⟨p, ps, rfl⟩ : ∃ p ps, pts = p :: ps := by
    cases pts with
    | nil => exact absurd rfl hne
    | cons p ps => exact ⟨p, ps, rfl⟩
  have hvne : vertexDists ⟨st, p :: ps, some ((p :: ps).map rowOf), cl⟩ q ≠ [] := by
    unfold vertexDists
    simp
  have key : nearestVertex ⟨st, p :: ps, some ((p :: ps).map rowOf), cl⟩ q eps =
      (if 0 < eps ∧
          listMin (vertexDists ⟨st, p :: ps, some ((p :: ps).map rowOf), cl⟩ q) < eps ^ 2
       then some (some (npArgmin (vertexDists ⟨st, p :: ps, some ((p :: ps).map rowOf), cl⟩ q)), none)
       else some (none, some (npArgmin (vertexDists ⟨st, p :: ps, some ((p :: ps).map rowOf), cl⟩ q)))) := rfl
  have hcond := nearestVertex_cond_iff_sqrt
    (listMin (vertexDists ⟨st, p :: ps, some ((p :: ps).map rowOf), cl⟩ q)) eps
  refine ⟨?_, ?_, npArgmin_isFirstArgmin hvne⟩
  · intro hs
    rw [key, if_pos (hcond.mpr hs)]
  · intro hs
    rw [key, if_neg (fun hcc => hs (hcond.mp hcc))]

/-- C6 witness: on the closed square, the query (0.5, 0.5) with epsilon 2 snaps
to vertex 0. -/
theorem C6_witness : nearestVertex shapeSq ⟨1/2, 1/2⟩ 2 = some (some 0, none) := by
  have h := C6_nearestVertex_spec shapeSq ⟨1/2, 1/2⟩ 2 rfl (by decide)
  have hd : vertexDists shapeSq ⟨1/2, 1/2⟩ = [1/2, 181/2, 361/2, 181/2] := by
    norm_num [vertexDists, shapeSq, sqDist, rowOf]
  have hmin : listMin (vertexDists shapeSq ⟨1/2, 1/2⟩) = 1/2 := by
    rw [hd]
    norm_num [listMin, rmin]
  have hidx : npArgmin (vertexDists shapeSq ⟨1/2, 1/2⟩) = 0 := by
    rw [npArgmin, hmin, hd]
    exact List.indexOf_cons_self _ _
  rw [← hidx]
  apply h.1
  rw [hmin]
  have h2 : (0 : ℝ) < ((2 : ℚ) : ℝ) := by norm_num
  rw [Real.sqrt_lt' h2]
  push_cast
  norm_num

/-- C4 counterexample: the claim's concrete case fails — on the closed square
buffer with query (5, 0), epsilon 0.5 and minDistIndex 0, `nearestEdge` does
NOT return edge index 0 (it returns 1: the loop reaches the bottom edge as the
slice `poly_array[0:2]` at loop index i = 1 and returns that i). -/
theorem C4_counterexample : nearestEdge square4 ⟨5, 0⟩ (1/2) 0 ≠ some 0 := by
  rw [nearestEdge_square4_eval]
  decide

/-- C4 amended: `nearestEdge` scans index pairs outward from `minDistIndex` in
both directions (forward candidate checked before backward at each step, at
most floor(n/2) steps) and returns the first scanned candidate edge whose
point-to-segment distance is ≤ epsilon — the forward candidate reported by the
index of its second endpoint — and `None` exactly when no scanned candidate
qualifies; in particular, on the closed square with query (5, 0), epsilon 0.5
and minDistIndex 0 it returns edge index 1 (the bottom edge, joining vertex 0
to vertex 1). -/
theorem C4_nearestEdge_spec :
    nearestEdge square4 ⟨5, 0⟩ (1/2) 0 = some 1 ∧
    (∀ (arr : List Row) (q : QPointF) (eps : ℚ) (m : Int),
      nearestEdge arr q eps m =
        (nePairs m (arr.length / 2)).findSome? (neStep arr arr.length q eps)) ∧
    (∀ (arr : List Row) (q : QPointF) (eps : ℚ) (m : Int),
      nearestEdge arr q eps m = none ↔
        ∀ ij ∈ nePairs m (arr.length / 2),
          lineDistLE q (linePos arr arr.length ij.1).2 eps = false ∧
          lineDistLE q (lineNeg arr ij.2) eps = false) := by
  refine ⟨nearestEdge_square4_eval,
    fun arr q eps m => neLoop_eq_findSome arr arr.length q eps _,
    fun arr q eps m => ?_⟩
  unfold nearestEdge
  rw [neLoop_eq_findSome, List.findSome?_eq_none_iff]
  constructor
  · intro h ij hij
    exact (neStep_eq_none_iff arr arr.length q eps ij).mp (h ij hij)
  · intro h ij hij
    exact (neStep_eq_none_iff arr arr.length q eps ij).mpr (h ij hij)

/-- C4 witness: on an empty buffer no pair is scanned and the search reports
no match. -/
theorem C4_witness : nearestEdge ([] : List Row) ⟨0, 0⟩ 1 0 = none :=
  (C4_nearestEdge_spec.2.2 [] ⟨0, 0⟩ 1 0).mpr (by simp [nePairs])

end Labelme
